import Mathlib

/-!
Shallow embedding of the repository's core logic (`src/infer.py`).

Modeling conventions:
* Python strings are `List Char`; `str.strip()`, `str.split()`, `str.find`,
  `str.upper()` and substring containment are translated character by character
  over the ASCII whitespace set that matters for this code.
* The float expression `chunk_size * 1.2` is modeled by the exact rational
  comparison `5 * (next_space - i) ≤ 6 * chunk_size`; `chars_per_token` is a
  rational number and `math.ceil` is `Int.ceil` on `ℚ`.
* External collaborators (HTTP download, pdfplumber, DDGS search, page fetch,
  the LLM) are oracles supplied through environment records; the filesystem
  state relevant to the temporary PDF is a single `Bool` (file present or not).
  The orchestrators return, besides the result payload, the final state of that
  flag and the number of LLM completion calls performed.
-/

namespace H2S

/-- ASCII whitespace stripped by Python's default `str.strip` / `str.split`. -/
def isPySpace (c : Char) : Bool :=
  c == ' ' || c == '\t' || c == '\n' || c == '\r' || c == '\x0b' || c == '\x0c'

/-- Characters that survive whitespace filtering. -/
def nonWS (c : Char) : Bool := !(isPySpace c)

/-- Python `s.strip()`. -/
def pyStrip (l : List Char) : List Char :=
  ((l.dropWhile isPySpace).reverse.dropWhile isPySpace).reverse

/-- Helper for `findFrom`: scan a list, returning the index (offset by `k`) of
the first occurrence of `c`. -/
def findFromAux (c : Char) : List Char → Nat → Option Nat
  | [], _ => none
  | x :: xs, k => if x == c then some k else findFromAux c xs (k + 1)

/-- Python `text.find(c, start)`: first index `≥ start` holding `c`, as an
`Option` instead of `-1`. -/
def findFrom (l : List Char) (c : Char) (start : Nat) : Option Nat :=
  findFromAux c (l.drop start) start

/-- One loop step of `chunk_text` (`src/infer.py` lines 57-64): the end offset
chosen for the chunk that starts at offset `i`. -/
def chunkEnd (text : List Char) (chunkSize i : Nat) : Nat :=
  if min (i + chunkSize) text.length < text.length then
    match findFrom text ' ' (min (i + chunkSize) text.length) with
    | some ns => if 5 * (ns - i) ≤ 6 * chunkSize then ns else min (i + chunkSize) text.length
    | none => min (i + chunkSize) text.length
  else min (i + chunkSize) text.length

/-- The `while i < L` loop of `chunk_text`, with explicit fuel; `chunk_text`
runs it with fuel `text.length`, which suffices for any `chunkSize ≥ 1`. -/
def chunkSpansAux (text : List Char) (chunkSize : Nat) : Nat → Nat → List (Nat × Nat)
  | _, 0 => []
  | i, fuel + 1 =>
    if i < text.length then
      (i, chunkEnd text chunkSize i) ::
        chunkSpansAux text chunkSize (chunkEnd text chunkSize i) fuel
    else []

/-- The index spans `(i, end)` produced by the `chunk_text` loop. -/
def chunkSpans (text : List Char) (chunkSize : Nat) : List (Nat × Nat) :=
  chunkSpansAux text chunkSize 0 text.length

/-- Python slice `l[a:b]`. -/
def sliceList (l : List Char) (a b : Nat) : List Char := (l.take b).drop a

/-- Function `chunk_text` from `src/infer.py` lines 53-65. -/
def chunk_text (text : List Char) (chunkSize : Nat) : List (List Char) :=
  ((chunkSpans text chunkSize).map fun p => pyStrip (sliceList text p.1 p.2)).filter
    fun c => !c.isEmpty

/-- Function `approx_tokens_from_chars` from `src/infer.py` lines 68-69. -/
def approx_tokens_from_chars (text : List Char) (charsPerToken : ℚ) : ℤ :=
  max 1 ⌈(text.length : ℚ) / charsPerToken⌉

/-- Does `hay` start with `needle`? -/
def listStartsWith : List Char → List Char → Bool
  | _, [] => true
  | [], _ :: _ => false
  | x :: xs, y :: ys => x == y && listStartsWith xs ys

/-- Python substring containment `needle in hay`. -/
def containsSub : List Char → List Char → Bool
  | [], needle => needle.isEmpty
  | x :: xs, needle => listStartsWith (x :: xs) needle || containsSub xs needle

/-- Python `s.upper()` (ASCII-relevant part). -/
def strUpper (l : List Char) : List Char := l.map Char.toUpper

def kwTrue : List Char := "TRUE".toList

def kwFalse : List Char := "FALSE".toList

def kwPartiallyTrue : List Char := "PARTIALLY TRUE".toList

def kwPartial : List Char := "PARTIAL".toList

def kwUncertain : List Char := "UNCERTAIN".toList

def kwUnclear : List Char := "UNCLEAR".toList

/-- Function `extract_label` from `src/infer.py` lines 202-214. -/
def extract_label (responseText : List Char) : List Char :=
  if containsSub (strUpper responseText) kwTrue &&
      !containsSub (strUpper responseText) kwFalse then kwTrue
  else if containsSub (strUpper responseText) kwFalse &&
      !containsSub (strUpper responseText) kwTrue then kwFalse
  else if containsSub (strUpper responseText) kwPartiallyTrue ||
      containsSub (strUpper responseText) kwPartial then kwPartiallyTrue
  else if containsSub (strUpper responseText) kwUncertain ||
      containsSub (strUpper responseText) kwUnclear then kwUncertain
  else kwUncertain

/-- Search-engine hit as produced by the DDGS collaborator: title, link, and
snippet (`result["title"]`, `result["href"]`, `result["body"]`). -/
structure RawResult where
  title : List Char
  href : List Char
  body : List Char
deriving DecidableEq

/-- Evidence source returned by `search_web_info`. -/
structure Source where
  title : List Char
  url : List Char
  content : List Char
deriving DecidableEq

/-- Helper for `pySplit`: accumulate the current word (reversed). -/
def pySplitAux : List Char → List Char → List (List Char)
  | [], acc => if acc.isEmpty then [] else [acc.reverse]
  | c :: cs, acc =>
    if isPySpace c then
      if acc.isEmpty then pySplitAux cs [] else acc.reverse :: pySplitAux cs []
    else pySplitAux cs (c :: acc)

/-- Python `s.split()` (split on whitespace runs, dropping empty words). -/
def pySplit (l : List Char) : List (List Char) := pySplitAux l []

def singleSpace : List Char := [' ']

/-- Expression `" ".join(text.split())[:3000]` from `src/infer.py` line 175. -/
def cleanPageText (raw : List Char) : List Char :=
  (List.intercalate singleSpace (pySplit raw)).take 3000

def fullContentSep : List Char := "\n\nFull content: ".toList

/-- Function `search_web_info` from `src/infer.py` lines 143-199, with the materialized
search-result list and the page-fetch pipeline (requests + BeautifulSoup,
producing the page text handed to line 175) abstracted as oracles; `fetch`
returning `none` models the per-result `except` branch (lines 185-192). -/
def search_web_info (results : List RawResult) (fetch : RawResult → Option (List Char)) :
    List Source :=
  results.map fun r =>
    match fetch r with
    | some raw =>
      { title := r.title, url := r.href, content := r.body ++ fullContentSep ++ cleanPageText raw }
    | none => { title := r.title, url := r.href, content := r.body }

def stSuccess : List Char := "success".toList

def stError : List Char := "error".toList

def keyMissingMsg : List Char := "GEMINI_API_KEY not found in environment variables".toList

def noTextMsg : List Char := "No text extracted from the PDF.".toList

def noSearchMsg : List Char := "No search results found. Cannot verify the information.".toList

def downloadFailMsg : List Char := "Failed to download PDF".toList

def readFailMsg : List Char := "Failed to read PDF".toList

def llmFailMsg : List Char := "LLM call failed".toList

/-- Field `metadata` of a successful `process_legal_document` run. -/
structure LegalMeta where
  estimated_tokens : ℤ
  chunks_processed : Nat
  within_token_limit : Bool
deriving DecidableEq

/-- Return dict of `process_legal_document`; absent keys are `none`. -/
structure LegalResult where
  status : List Char
  message : Option (List Char)
  explanation : Option (List Char)
  metadata : Option LegalMeta
deriving DecidableEq

/-- Oracles for the external collaborators of `process_legal_document`:
whether `get_gemini_client` finds a key, whether the download and the
pdfplumber extraction succeed, the extracted text, whether LLM calls succeed,
and the LLM's response per (1-indexed) chunk call. -/
structure LegalEnv where
  hasApiKey : Bool
  downloadOk : Bool
  pdfReadOk : Bool
  pdfText : List Char
  llmOk : Bool
  llm : Nat → List Char

/-- Observable outcome of `process_legal_document`: the returned dict, whether
the temporary PDF file is still on disk afterwards, and how many LLM
completion calls were made. -/
structure LegalOutcome where
  result : LegalResult
  fileExists : Bool
  llmCalls : Nat

def mkLegalError (msg : List Char) : LegalResult :=
  { status := stError, message := some msg, explanation := none, metadata := none }

def blankSep : List Char := "\n\n".toList

/-- Function `process_legal_document` from `src/infer.py` lines 72-140; `fileExists0` is
whether `temp_document.pdf` is on disk when the request starts. The branches
mirror the source: a missing key or a failed download raise before
`local_pdf_path` is bound, so the `except` block (lines 136-140) removes
nothing; a failed extraction raises after it is bound, so the file is removed;
the empty-text early return (lines 80-85) returns without any cleanup; the
success path removes the file at lines 121-122. -/
def process_legal_document (env : LegalEnv) (fileExists0 : Bool) : LegalOutcome :=
  if env.hasApiKey = false then
    { result := mkLegalError keyMissingMsg, fileExists := fileExists0, llmCalls := 0 }
  else if env.downloadOk = false then
    { result := mkLegalError downloadFailMsg, fileExists := fileExists0, llmCalls := 0 }
  else if env.pdfReadOk = false then
    { result := mkLegalError readFailMsg, fileExists := false, llmCalls := 0 }
  else if (pyStrip env.pdfText).isEmpty then
    { result := { status := stError, message := some noTextMsg, explanation := none,
                  metadata := none },
      fileExists := true, llmCalls := 0 }
  else if env.llmOk = false then
    { result := mkLegalError llmFailMsg, fileExists := false, llmCalls := 0 }
  else
    { result :=
        { status := stSuccess, message := none,
          explanation := some (List.intercalate blankSep
            (((List.range (if 128000 < approx_tokens_from_chars env.pdfText 4 then
                chunk_text env.pdfText 30000 else [env.pdfText]).length)).map
              fun k => env.llm (k + 1))),
          metadata := some
            { estimated_tokens := approx_tokens_from_chars env.pdfText 4,
              chunks_processed := (if 128000 < approx_tokens_from_chars env.pdfText 4 then
                chunk_text env.pdfText 30000 else [env.pdfText]).length,
              within_token_limit := decide (approx_tokens_from_chars env.pdfText 4 ≤ 128000) } },
      fileExists := false,
      llmCalls := (if 128000 < approx_tokens_from_chars env.pdfText 4 then
        chunk_text env.pdfText 30000 else [env.pdfText]).length }

/-- Return dict of `verify_misinformation`; absent keys are `none`. -/
structure VerifyResult where
  status : List Char
  message : Option (List Char)
  classification : Option (List Char)
  explanation : Option (List Char)
  detailed_explanation : Option (List Char)
  sources : List (List Char × List Char)
  sources_count : Option Nat
deriving DecidableEq

/-- Oracles for `verify_misinformation`: key presence, the materialized search
hits (empty when DDGS fails or finds nothing), the page-fetch oracle, LLM
availability, and the two possible LLM response texts. -/
structure VerifyEnv where
  hasApiKey : Bool
  rawResults : List RawResult
  fetch : RawResult → Option (List Char)
  llmOk : Bool
  llmResponse : List Char
  llmDetail : List Char

def mkVerifyError (msg : List Char) : VerifyResult :=
  { status := stError, message := some msg, classification := none, explanation := none,
    detailed_explanation := none, sources := [], sources_count := none }

/-- Function `verify_misinformation` from `src/infer.py` lines 217-292, paired with the
number of LLM completion calls performed. -/
def verify_misinformation (env : VerifyEnv) : VerifyResult × Nat :=
  if env.hasApiKey = false then (mkVerifyError keyMissingMsg, 0)
  else if (search_web_info env.rawResults env.fetch).isEmpty then
    (mkVerifyError noSearchMsg, 0)
  else if env.llmOk = false then (mkVerifyError llmFailMsg, 0)
  else
    ({ status := stSuccess, message := none,
       classification := some (extract_label env.llmResponse),
       explanation := some env.llmResponse,
       detailed_explanation :=
         if extract_label env.llmResponse = kwFalse then some env.llmDetail else none,
       sources := (search_web_info env.rawResults env.fetch).map fun r => (r.title, r.url),
       sources_count := some (search_web_info env.rawResults env.fetch).length },
     if extract_label env.llmResponse = kwFalse then 2 else 1)

/-- Checker for the span list produced by the `chunk_text` loop: starting at
offset `i`, the spans are consecutive, nonempty, inside the text, and end
exactly at `L`. -/
def spansOk (L : Nat) : Nat → List (Nat × Nat) → Bool
  | i, [] => i == L
  | i, (a, b) :: rest => a == i && decide (i < b) && decide (b ≤ L) && spansOk L b rest

lemma findFromAux_bounds (c : Char) :
    ∀ (l : List Char) (k n : Nat), findFromAux c l k = some n → k ≤ n ∧ n < k + l.length
  | [], k, n => by simp [findFromAux]
  | x :: xs, k, n => by
    intro h
    by_cases hx : x == c
    · simp only [findFromAux, if_pos hx, Option.some.injEq] at h
      subst h
      simp
    · simp only [findFromAux, if_neg hx] at h
      have := findFromAux_bounds c xs (k + 1) n h
      simp only [List.length_cons]
      omega

lemma findFrom_bounds (l : List Char) (c : Char) (s n : Nat) (h : findFrom l c s = some n) :
    s ≤ n ∧ n < l.length := by
  have := findFromAux_bounds c (l.drop s) s n h
  rw [List.length_drop] at this
  omega

lemma chunkEnd_le (text : List Char) (cs i : Nat) : chunkEnd text cs i ≤ text.length := by
  unfold chunkEnd
  split
  · split
    · rename_i ns hns
      split
      · exact Nat.le_of_lt (findFrom_bounds text ' ' _ ns hns).2
      · exact Nat.min_le_right _ _
    · exact Nat.min_le_right _ _
  · exact Nat.min_le_right _ _

lemma chunkEnd_gt (text : List Char) (cs i : Nat) (hcs : 0 < cs) (hi : i < text.length) :
    i < chunkEnd text cs i := by
  have hmin : i < min (i + cs) text.length := by omega
  unfold chunkEnd
  split
  · split
    · rename_i ns hns
      have := (findFrom_bounds text ' ' _ ns hns).1
      split
      · omega
      · exact hmin
    · exact hmin
  · exact hmin

lemma chunkSpansAux_stop (text : List Char) (cs : Nat) (fuel i : Nat)
    (h : text.length ≤ i) : chunkSpansAux text cs i fuel = [] := by
  cases fuel with
  | zero => rfl
  | succ fuel => simp [chunkSpansAux, Nat.not_lt.mpr h]

lemma chunkSpansAux_ok (text : List Char) (cs : Nat) (hcs : 0 < cs) :
    ∀ (fuel i : Nat), text.length - i ≤ fuel → i ≤ text.length →
      spansOk text.length i (chunkSpansAux text cs i fuel) = true
  | 0, i, hfuel, hile => by
    have : i = text.length := by omega
    subst this
    simp [chunkSpansAux, spansOk]
  | fuel + 1, i, hfuel, hile => by
    by_cases hi : i < text.length
    · have h1 := chunkEnd_gt text cs i hcs hi
      have h2 := chunkEnd_le text cs i
      have ih := chunkSpansAux_ok text cs hcs fuel (chunkEnd text cs i) (by omega) h2
      simp only [chunkSpansAux, if_pos hi, spansOk, ih]
      simp [h1, h2]
    · have : i = text.length := by omega
      subst this
      simp [chunkSpansAux, spansOk]

lemma chunkSpansAux_flatten (text : List Char) (cs : Nat) (hcs : 0 < cs) :
    ∀ (fuel i : Nat), text.length - i ≤ fuel → i ≤ text.length →
      ((chunkSpansAux text cs i fuel).map fun p => sliceList text p.1 p.2).flatten =
        text.drop i
  | 0, i, hfuel, hile => by
    have : i = text.length := by omega
    subst this
    simp [chunkSpansAux]
  | fuel + 1, i, hfuel, hile => by
    by_cases hi : i < text.length
    · have h1 := chunkEnd_gt text cs i hcs hi
      have h2 := chunkEnd_le text cs i
      have ih := chunkSpansAux_flatten text cs hcs fuel (chunkEnd text cs i) (by omega) h2
      simp only [chunkSpansAux, if_pos hi, List.map_cons, List.flatten_cons, ih]
      have hie : i + (chunkEnd text cs i - i) = chunkEnd text cs i := by omega
      have hslice : sliceList text i (chunkEnd text cs i) =
          (text.drop i).take (chunkEnd text cs i - i) := by
        unfold sliceList
        rw [List.take_drop, hie]
      have hdrop : text.drop (chunkEnd text cs i) =
          (text.drop i).drop (chunkEnd text cs i - i) := by
        rw [List.drop_drop, hie]
      rw [hslice, hdrop, List.take_append_drop]
    · have : i = text.length := by omega
      subst this
      simp [chunkSpansAux]

lemma chunkSpansAux_length (text : List Char) (cs : Nat) (hcs : 0 < cs) :
    ∀ (fuel i : Nat), (chunkSpansAux text cs i fuel).length ≤ text.length - i
  | 0, i => by simp [chunkSpansAux]
  | fuel + 1, i => by
    by_cases hi : i < text.length
    · have h1 := chunkEnd_gt text cs i hcs hi
      have ih := chunkSpansAux_length text cs hcs fuel (chunkEnd text cs i)
      simp only [chunkSpansAux, if_pos hi, List.length_cons]
      omega
    · simp [chunkSpansAux, hi]

lemma chunkSpansAux_mem (text : List Char) (cs : Nat) :
    ∀ (fuel i a b : Nat), (a, b) ∈ chunkSpansAux text cs i fuel →
      b = chunkEnd text cs a ∧ a < text.length
  | 0, i, a, b => by simp [chunkSpansAux]
  | fuel + 1, i, a, b => by
    by_cases hi : i < text.length
    · simp only [chunkSpansAux, if_pos hi, List.mem_cons, Prod.mk.injEq]
      rintro (⟨ha, hb⟩ | hmem)
      · subst ha; subst hb; exact ⟨rfl, hi⟩
      · exact chunkSpansAux_mem text cs fuel (chunkEnd text cs i) a b hmem
    · simp [chunkSpansAux, hi]

lemma filter_nonWS_dropWhile :
    ∀ l : List Char, (l.dropWhile isPySpace).filter nonWS = l.filter nonWS
  | [] => rfl
  | x :: xs => by
    by_cases hx : isPySpace x
    · have hnx : nonWS x = false := by simp [nonWS, hx]
      rw [List.dropWhile_cons, if_pos hx, List.filter_cons, hnx]
      simp only [Bool.false_eq_true, if_false]
      exact filter_nonWS_dropWhile xs
    · rw [List.dropWhile_cons, if_neg hx]

lemma filter_nonWS_pyStrip (l : List Char) : (pyStrip l).filter nonWS = l.filter nonWS := by
  unfold pyStrip
  rw [List.filter_reverse, filter_nonWS_dropWhile, List.filter_reverse,
    filter_nonWS_dropWhile, List.reverse_reverse]

lemma dropWhile_ne_nil_nonWS :
    ∀ l : List Char, l.dropWhile isPySpace ≠ [] →
      ∃ x ∈ l.dropWhile isPySpace, nonWS x = true
  | [], h => absurd rfl h
  | x :: xs, h => by
    by_cases hx : isPySpace x
    · rw [List.dropWhile_cons, if_pos hx] at h ⊢
      exact dropWhile_ne_nil_nonWS xs h
    · rw [List.dropWhile_cons, if_neg hx]
      exact ⟨x, List.mem_cons_self x xs, by simp [nonWS, hx]⟩

lemma pyStrip_has_nonWS (l : List Char) (h : pyStrip l ≠ []) :
    ∃ x ∈ pyStrip l, nonWS x = true := by
  unfold pyStrip at h ⊢
  have h2 : ((l.dropWhile isPySpace).reverse.dropWhile isPySpace) ≠ [] := by
    intro hnil
    rw [hnil] at h
    exact h rfl
  obtain ⟨x, hx, hnx⟩ := dropWhile_ne_nil_nonWS _ h2
  exact ⟨x, List.mem_reverse.mpr hx, hnx⟩

lemma filter_nonWS_ne_nil_of_pyStrip (l : List Char) (h : pyStrip l ≠ []) :
    l.filter nonWS ≠ [] := by
  obtain ⟨x, hx, hnx⟩ := pyStrip_has_nonWS l h
  have hmem : x ∈ (pyStrip l).filter nonWS := List.mem_filter.mpr ⟨hx, hnx⟩
  rw [filter_nonWS_pyStrip] at hmem
  exact List.ne_nil_of_mem hmem

lemma flatten_filter_nonempty :
    ∀ l : List (List Char), (l.filter fun c => !c.isEmpty).flatten = l.flatten
  | [] => rfl
  | c :: rest => by
    by_cases hc : c.isEmpty
    · have : c = [] := List.isEmpty_iff.mp hc
      subst this
      simp [List.filter_cons, flatten_filter_nonempty rest]
    · simp [List.filter_cons, hc, flatten_filter_nonempty rest]

/-- The slices of the chunk spans concatenate back to the whole text. -/
lemma chunkSpans_flatten (text : List Char) (cs : Nat) (hcs : 0 < cs) :
    ((chunkSpans text cs).map fun p => sliceList text p.1 p.2).flatten = text := by
  unfold chunkSpans
  rw [chunkSpansAux_flatten text cs hcs text.length 0 (by omega) (by omega), List.drop_zero]

/-- The non-whitespace characters of the chunks, concatenated, are exactly the
non-whitespace characters of the input, in order. -/
lemma chunk_text_flatten_filter (text : List Char) (cs : Nat) (hcs : 0 < cs) :
    ((chunk_text text cs).flatten).filter nonWS = text.filter nonWS := by
  unfold chunk_text
  rw [flatten_filter_nonempty, List.filter_flatten, List.map_map]
  have hmap : ((chunkSpans text cs).map
      ((List.filter nonWS) ∘ fun p => pyStrip (sliceList text p.1 p.2))) =
      ((chunkSpans text cs).map ((List.filter nonWS) ∘ fun p => sliceList text p.1 p.2)) := by
    apply List.map_congr_left
    intro p _
    exact filter_nonWS_pyStrip _
  rw [hmap, ← List.map_map, ← List.filter_flatten, chunkSpans_flatten text cs hcs]

lemma flatten_length_ge :
    ∀ l : List (List Char), (∀ c ∈ l, c.filter nonWS ≠ []) →
      l.length ≤ ((l.map (List.filter nonWS)).flatten).length
  | [], _ => by simp
  | c :: rest, h => by
    have h1 : (c.filter nonWS).length ≠ 0 := by
      intro hlen
      exact h c (List.mem_cons_self c rest) (List.length_eq_zero.mp hlen)
    have h2 := flatten_length_ge rest fun x hx => h x (List.mem_cons_of_mem c hx)
    simp only [List.map_cons, List.flatten_cons, List.length_append, List.length_cons]
    omega

lemma chunk_text_mem_filter_ne_nil (text : List Char) (cs : Nat) (c : List Char)
    (hc : c ∈ chunk_text text cs) : c.filter nonWS ≠ [] ∧ c ≠ [] := by
  unfold chunk_text at hc
  have hne : ¬c.isEmpty := by
    have := (List.mem_filter.mp hc).2
    simpa using this
  have hmap := (List.mem_filter.mp hc).1
  obtain ⟨p, _, hp⟩ := List.mem_map.mp hmap
  have hcnil : c ≠ [] := by
    intro h
    rw [h] at hne
    exact hne rfl
  refine ⟨?_, hcnil⟩
  obtain ⟨x, hx, hnx⟩ := pyStrip_has_nonWS (sliceList text p.1 p.2) (by rw [hp]; exact hcnil)
  rw [hp] at *
  exact List.ne_nil_of_mem (List.mem_filter.mpr ⟨hx, hnx⟩)

/-- The number of chunks never exceeds the number of non-whitespace characters
of the input. -/
lemma chunk_text_count_le (text : List Char) (cs : Nat) (hcs : 0 < cs) :
    (chunk_text text cs).length ≤ (text.filter nonWS).length := by
  have h1 := flatten_length_ge (chunk_text text cs)
    (fun c hc => (chunk_text_mem_filter_ne_nil text cs c hc).1)
  rw [← List.filter_flatten, chunk_text_flatten_filter text cs hcs] at h1
  exact h1

lemma chunk_text_ne_nil (text : List Char) (cs : Nat) (hcs : 0 < cs)
    (h : text.filter nonWS ≠ []) : chunk_text text cs ≠ [] := by
  intro hc
  apply h
  rw [← chunk_text_flatten_filter text cs hcs, hc]
  rfl

lemma chunkEnd_span_le (text : List Char) (cs i : Nat) :
    5 * (chunkEnd text cs i - i) ≤ 6 * cs := by
  have hmin : min (i + cs) text.length - i ≤ cs := by omega
  unfold chunkEnd
  split
  · split
    · rename_i ns hns
      split
      · rename_i hcond
        omega
      · omega
    · omega
  · omega

lemma pyStrip_length_le (l : List Char) : (pyStrip l).length ≤ l.length := by
  unfold pyStrip
  rw [List.length_reverse]
  calc ((l.dropWhile isPySpace).reverse.dropWhile isPySpace).length
      ≤ (l.dropWhile isPySpace).reverse.length := (List.dropWhile_sublist _).length_le
    _ = (l.dropWhile isPySpace).length := List.length_reverse _
    _ ≤ l.length := (List.dropWhile_sublist _).length_le

lemma sliceList_length_le (l : List Char) (a b : Nat) : (sliceList l a b).length ≤ b - a := by
  unfold sliceList
  rw [List.length_drop, List.length_take]
  omega

/-- Every chunk returned by `chunk_text` fits in `1.2 * chunkSize` characters
(in exact arithmetic: five times its length is at most six times the size). -/
lemma chunk_text_length_le (text : List Char) (cs : Nat) (c : List Char)
    (hc : c ∈ chunk_text text cs) : 5 * c.length ≤ 6 * cs := by
  unfold chunk_text at hc
  have hmap := (List.mem_filter.mp hc).1
  obtain ⟨p, hpmem, hp⟩ := List.mem_map.mp hmap
  have hspan := chunkSpansAux_mem text cs text.length 0 p.1 p.2 hpmem
  have h1 : c.length ≤ p.2 - p.1 := by
    rw [← hp]
    calc (pyStrip (sliceList text p.1 p.2)).length
        ≤ (sliceList text p.1 p.2).length := pyStrip_length_le _
      _ ≤ p.2 - p.1 := sliceList_length_le text p.1 p.2
  have h2 : 5 * (p.2 - p.1) ≤ 6 * cs := by
    rw [hspan.1]
    exact chunkEnd_span_le text cs p.1
  omega

def badText : List Char := List.replicate 512000 ' ' ++ ['a']

lemma badText_length : badText.length = 512001 := by
  unfold badText
  rw [List.length_append, List.length_replicate, List.length_cons, List.length_nil]

lemma filter_nonWS_replicate_space :
    ∀ n : Nat, (List.replicate n ' ').filter nonWS = []
  | 0 => rfl
  | n + 1 => by
    rw [List.replicate_succ, List.filter_cons]
    have : nonWS ' ' = false := by decide
    simp [this, filter_nonWS_replicate_space n]

lemma badText_filter : badText.filter nonWS = ['a'] := by
  unfold badText
  rw [List.filter_append, filter_nonWS_replicate_space]
  have : nonWS 'a' = true := by decide
  simp [List.filter_cons, this]

lemma badText_strip_ne : pyStrip badText ≠ [] := by
  intro h
  have h2 : badText.filter nonWS = [] := by
    rw [← filter_nonWS_pyStrip badText, h]
    rfl
  rw [badText_filter] at h2
  exact List.cons_ne_nil 'a' [] h2

lemma badText_tokens : approx_tokens_from_chars badText 4 = 128001 := by
  unfold approx_tokens_from_chars
  rw [badText_length]
  have hc : ((512001 : ℕ) : ℚ) = 512001 := by norm_num
  rw [hc]
  have hceil : ⌈(512001 : ℚ) / 4⌉ = 128001 := by
    rw [Int.ceil_eq_iff]
    constructor
    · norm_num
    · norm_num
  rw [hceil]
  norm_num

lemma badText_chunks : (chunk_text badText 30000).length = 1 := by
  have h1 : (chunk_text badText 30000).length ≤ 1 := by
    have h := chunk_text_count_le badText 30000 (by norm_num)
    rw [badText_filter] at h
    simpa using h
  have h2 : chunk_text badText 30000 ≠ [] := by
    apply chunk_text_ne_nil badText 30000 (by norm_num)
    rw [badText_filter]
    exact List.cons_ne_nil 'a' []
  have h3 : 0 < (chunk_text badText 30000).length := List.length_pos.mpr h2
  omega

lemma chunkEnd_zero_short (text : List Char) (cs : Nat) (h : text.length ≤ cs) :
    chunkEnd text cs 0 = text.length := by
  unfold chunkEnd
  have hmin : min (0 + cs) text.length = text.length := by omega
  rw [hmin]
  simp

def partialResponse : List Char := "This is PARTIALLY TRUE".toList

/-- C1: the claim says a response containing "PARTIALLY TRUE" (and no "FALSE")
is labeled "PARTIALLY TRUE"; the code's first branch fires instead, because
"PARTIALLY TRUE" contains the substring "TRUE", so `extract_label` returns
"TRUE" on exactly such inputs. -/
theorem extract_label_partially_true_misclassified :
    containsSub (strUpper partialResponse) kwPartiallyTrue = true ∧
      containsSub (strUpper partialResponse) kwFalse = false ∧
      extract_label partialResponse = kwTrue ∧
      kwTrue ≠ kwPartiallyTrue := by decide

def envC2 : LegalEnv :=
  { hasApiKey := true, downloadOk := true, pdfReadOk := true, pdfText := [' '],
    llmOk := true, llm := fun _ => [] }

/-- C2: on the path where PDF extraction yields whitespace-only text the
function returns the `status = "error"` result without deleting the downloaded
temporary file: contrary to the claim, the file is still on disk afterwards. -/
theorem process_legal_document_empty_text_keeps_file :
    (process_legal_document envC2 false).result.status = stError ∧
      (process_legal_document envC2 false).result.message = some noTextMsg ∧
      (process_legal_document envC2 false).fileExists = true := by decide

/-- C3 (counterexample): the whitespace-only string `" "` is a non-empty string
shorter than the positive chunk size 2, yet `chunk_text` returns zero chunks,
not one. -/
theorem chunk_text_short_whitespace_cex :
    ([' '] : List Char) ≠ [] ∧ 0 < 2 ∧ ([' '] : List Char).length < 2 ∧
      (chunk_text [' '] 2).length ≠ 1 := by decide

/-- C3 (amended): for text whose `strip()` is non-empty and whose length is
below the chunk size, `chunk_text` returns exactly one chunk: the trimmed
input. -/
theorem chunk_text_short_single (text : List Char) (cs : Nat)
    (h1 : pyStrip text ≠ []) (h2 : text.length < cs) :
    chunk_text text cs = [pyStrip text] := by
  have htne : text ≠ [] := by
    intro h
    rw [h] at h1
    exact h1 rfl
  have hlen : 0 < text.length := List.length_pos.mpr htne
  have hend : chunkEnd text cs 0 = text.length := chunkEnd_zero_short text cs (Nat.le_of_lt h2)
  obtain ⟨n, hn⟩ : ∃ n, text.length = n + 1 := ⟨text.length - 1, by omega⟩
  unfold chunk_text chunkSpans
  rw [hn]
  simp only [chunkSpansAux]
  rw [if_pos (hn ▸ hlen), hend, chunkSpansAux_stop text cs n text.length (le_refl _)]
  simp only [List.map_cons, List.map_nil, List.filter_cons, List.filter_nil]
  have hslice : sliceList text 0 text.length = text := by
    unfold sliceList
    rw [List.take_length, List.drop_zero]
  rw [hslice]
  have hne : (pyStrip text).isEmpty = false := by simp [List.isEmpty_iff, h1]
  rw [hne]
  rfl

def shortSample : List Char := [' ', 'h', 'i', ' ']

/-- C3 (witness): `chunk_text "  hi " 9 = ["hi"]`. -/
theorem chunk_text_short_single_witness :
    chunk_text shortSample 9 = [pyStrip shortSample] :=
  chunk_text_short_single shortSample 9 (by decide) (by decide)

/-- C4: every chunk returned by `chunk_text` (including the last) has at most
`1.2 * chunk_size` characters, stated in exact arithmetic as
`5 * length ≤ 6 * chunk_size`; and when no space lies within the tolerance
window — the search finds none at all, or only one farther than
`1.2 * chunk_size` from the chunk start — the loop splits hard at
`chunk_size`. -/
theorem chunk_text_size_bound (text : List Char) (cs : Nat) (c : List Char) (i ns : Nat)
    (hcs : 0 < cs) (hc : c ∈ chunk_text text cs) :
    5 * c.length ≤ 6 * cs ∧
      (i + cs < text.length → findFrom text ' ' (i + cs) = none →
        chunkEnd text cs i = i + cs) ∧
      (i + cs < text.length → findFrom text ' ' (i + cs) = some ns →
        6 * cs < 5 * (ns - i) → chunkEnd text cs i = i + cs) := by
  refine ⟨chunk_text_length_le text cs c hc, ?_, ?_⟩
  · intro hlt hfind
    have hmin : min (i + cs) text.length = i + cs := by omega
    unfold chunkEnd
    rw [hmin, if_pos hlt, hfind]
  · intro hlt hfind hfar
    have hmin : min (i + cs) text.length = i + cs := by omega
    unfold chunkEnd
    rw [hmin, if_pos hlt, hfind]
    simp only [if_neg (by omega : ¬5 * (ns - i) ≤ 6 * cs)]

def boundSample : List Char := ['a', 'b', ' ', 'c', 'd']

/-- C4 (witness): the bound and the hard-split characterization evaluated on
`"ab cd"` with chunk size 2. -/
theorem chunk_text_size_bound_witness :
    5 * (['a', 'b'] : List Char).length ≤ 6 * 2 ∧
      (0 + 2 < boundSample.length → findFrom boundSample ' ' (0 + 2) = none →
        chunkEnd boundSample 2 0 = 0 + 2) ∧
      (0 + 2 < boundSample.length → findFrom boundSample ' ' (0 + 2) = some 2 →
        6 * 2 < 5 * (2 - 0) → chunkEnd boundSample 2 0 = 0 + 2) :=
  chunk_text_size_bound boundSample 2 ['a', 'b'] 0 2 (by decide) (by decide)

/-- C5: the spans chosen by the `chunk_text` loop start at 0, are consecutive,
nonempty and end exactly at the text length (so every character belongs to
exactly one span), and the concatenation of the returned trimmed chunks
preserves the subsequence of non-whitespace characters exactly and in order. -/
theorem chunk_text_partition (text : List Char) (cs : Nat) (hcs : 0 < cs) :
    spansOk text.length 0 (chunkSpans text cs) = true ∧
      ((chunk_text text cs).flatten).filter nonWS = text.filter nonWS :=
  ⟨chunkSpansAux_ok text cs hcs text.length 0 (by omega) (by omega),
   chunk_text_flatten_filter text cs hcs⟩

def partitionSample : List Char := [' ', 'a', 'b', ' ', 'c', 'd', ' ', 'e']

/-- C5 (witness): the partition properties evaluated on `" ab cd e"` with
chunk size 3. -/
theorem chunk_text_partition_witness :
    spansOk partitionSample.length 0 (chunkSpans partitionSample 3) = true ∧
      ((chunk_text partitionSample 3).flatten).filter nonWS =
        partitionSample.filter nonWS :=
  chunk_text_partition partitionSample 3 (by decide)

/-- C10: for every `chunk_size ≥ 1` the `chunk_text` loop terminates: the end
offset chosen in each iteration strictly exceeds the current offset, and the
loop runs at most `len(text)` iterations (the span list is no longer than the
text). -/
theorem chunk_text_terminates (text : List Char) (cs i : Nat) (hcs : 1 ≤ cs) :
    (i < text.length → i + 1 ≤ chunkEnd text cs i) ∧
      (chunkSpans text cs).length ≤ text.length := by
  constructor
  · intro hi
    exact chunkEnd_gt text cs i hcs hi
  · unfold chunkSpans
    have := chunkSpansAux_length text cs hcs text.length 0
    omega

def termSample : List Char := ['x', ' ', 'y', 'z']

/-- C10 (witness): termination quantities evaluated on `"x yz"` with chunk
size 1. -/
theorem chunk_text_terminates_witness :
    (0 < termSample.length → 0 + 1 ≤ chunkEnd termSample 1 0) ∧
      (chunkSpans termSample 1).length ≤ termSample.length :=
  chunk_text_terminates termSample 1 0 (by decide)

def abcdText : List Char := "abcd".toList

/-- C9: for non-empty text and positive `chars_per_token`,
`approx_tokens_from_chars` equals `ceil(len(text) / chars_per_token)`, is at
least 1, equals 1 on "abcd" with the default 4.0, and is monotone
non-decreasing in the input length. -/
theorem approx_tokens_spec (t1 t2 : List Char) (cpt : ℚ) (h1 : t1 ≠ [])
    (hc : 0 < cpt) (hlen : t1.length ≤ t2.length) :
    approx_tokens_from_chars t1 cpt = ⌈(t1.length : ℚ) / cpt⌉ ∧
      1 ≤ approx_tokens_from_chars t1 cpt ∧
      approx_tokens_from_chars abcdText 4 = 1 ∧
      approx_tokens_from_chars t1 cpt ≤ approx_tokens_from_chars t2 cpt := by
  have hpos : 0 < (t1.length : ℚ) := by
    have h := List.length_pos.mpr h1
    exact_mod_cast h
  have hceil : 1 ≤ ⌈(t1.length : ℚ) / cpt⌉ := Int.ceil_pos.mpr (div_pos hpos hc)
  refine ⟨?_, le_max_left 1 _, ?_, ?_⟩
  · unfold approx_tokens_from_chars
    exact max_eq_right hceil
  · unfold approx_tokens_from_chars
    have h4 : ((abcdText.length : ℚ)) = 4 := by
      have h : abcdText.length = 4 := rfl
      rw [h]
      norm_num
    rw [h4]
    have hdiv : (4 : ℚ) / 4 = 1 := by norm_num
    rw [hdiv, Int.ceil_one]
    exact max_self 1
  · unfold approx_tokens_from_chars
    have hq : ((t1.length : ℚ)) ≤ (t2.length : ℚ) := by exact_mod_cast hlen
    have hdiv : (t1.length : ℚ) / cpt ≤ (t2.length : ℚ) / cpt := by gcongr
    exact max_le_max (le_refl 1) (Int.ceil_le_ceil hdiv)

lemma process_success_shape (env : LegalEnv) (b : Bool) (h1 : env.hasApiKey = true)
    (h2 : env.downloadOk = true) (h3 : env.pdfReadOk = true) (h4 : env.llmOk = true)
    (h5 : pyStrip env.pdfText ≠ []) (h6 : 128000 < approx_tokens_from_chars env.pdfText 4) :
    (process_legal_document env b).result.status = stSuccess ∧
      (process_legal_document env b).result.metadata = some
        { estimated_tokens := approx_tokens_from_chars env.pdfText 4,
          chunks_processed := (chunk_text env.pdfText 30000).length,
          within_token_limit := false } ∧
      (process_legal_document env b).fileExists = false ∧
      (process_legal_document env b).llmCalls = (chunk_text env.pdfText 30000).length := by
  have hobe : (pyStrip env.pdfText).isEmpty = false := by simp [List.isEmpty_iff, h5]
  have hdec : decide (approx_tokens_from_chars env.pdfText 4 ≤ 128000) = false :=
    decide_eq_false (not_le.mpr h6)
  unfold process_legal_document
  rw [if_neg (by simp [h1] : ¬env.hasApiKey = false),
    if_neg (by simp [h2] : ¬env.downloadOk = false),
    if_neg (by simp [h3] : ¬env.pdfReadOk = false),
    if_neg (by simp [hobe] : ¬(pyStrip env.pdfText).isEmpty = true),
    if_neg (by simp [h4] : ¬env.llmOk = false)]
  simp only [if_pos h6, hdec]
  exact ⟨trivial, trivial, trivial, trivial⟩

def aText : List Char := ['a']

def abText : List Char := ['a', 'b']

/-- C9 (witness): the estimator contract evaluated at `"a"`, `"ab"` and the
default 4.0 characters per token. -/
theorem approx_tokens_spec_witness :
    approx_tokens_from_chars aText 4 = ⌈(aText.length : ℚ) / 4⌉ ∧
      1 ≤ approx_tokens_from_chars aText 4 ∧
      approx_tokens_from_chars abcdText 4 = 1 ∧
      approx_tokens_from_chars aText 4 ≤ approx_tokens_from_chars abText 4 :=
  approx_tokens_spec aText abText 4 (by decide) (by norm_num) (by decide)

def envC6 : LegalEnv :=
  { hasApiKey := true, downloadOk := true, pdfReadOk := true, pdfText := badText,
    llmOk := true, llm := fun _ => [] }

/-- C6 (counterexample): a document of 512000 spaces followed by one letter has
an estimated token count of 128001 > 128000, yet `chunk_text` yields exactly
one chunk, so `chunks_processed = 1` — the text is not split into more than
one chunk. -/
theorem process_legal_document_over_limit_cex :
    128000 < approx_tokens_from_chars badText 4 ∧
      (process_legal_document envC6 false).result.status = stSuccess ∧
      (process_legal_document envC6 false).result.metadata = some
        { estimated_tokens := 128001, chunks_processed := 1, within_token_limit := false } ∧
      (process_legal_document envC6 false).llmCalls = 1 := by
  have htok : 128000 < approx_tokens_from_chars badText 4 := by
    rw [badText_tokens]
    norm_num
  have hshape := process_success_shape envC6 false rfl rfl rfl rfl badText_strip_ne htok
  refine ⟨htok, hshape.1, ?_, ?_⟩
  · rw [hshape.2.1]
    have hpdf : envC6.pdfText = badText := rfl
    rw [hpdf, badText_tokens, badText_chunks]
  · rw [hshape.2.2.2]
    exact badText_chunks

/-- C6 (amended): when the pipeline's collaborators succeed, the extracted text
trims non-empty, and the estimated token count exceeds the 128000 legal limit,
`process_legal_document` chunks the text with `chunk_text` (at least one
chunk), reports `chunks_processed` equal to the number of per-chunk LLM calls
made, and reports `within_token_limit = false`. -/
theorem process_legal_document_over_limit (env : LegalEnv) (b : Bool)
    (h1 : env.hasApiKey = true) (h2 : env.downloadOk = true) (h3 : env.pdfReadOk = true)
    (h4 : env.llmOk = true) (h5 : pyStrip env.pdfText ≠ [])
    (h6 : 128000 < approx_tokens_from_chars env.pdfText 4) :
    (process_legal_document env b).result.status = stSuccess ∧
      (process_legal_document env b).result.metadata = some
        { estimated_tokens := approx_tokens_from_chars env.pdfText 4,
          chunks_processed := (chunk_text env.pdfText 30000).length,
          within_token_limit := false } ∧
      1 ≤ (chunk_text env.pdfText 30000).length ∧
      (process_legal_document env b).llmCalls = (chunk_text env.pdfText 30000).length := by
  have hshape := process_success_shape env b h1 h2 h3 h4 h5 h6
  have hpos : 1 ≤ (chunk_text env.pdfText 30000).length := by
    have hne := chunk_text_ne_nil env.pdfText 30000 (by norm_num)
      (filter_nonWS_ne_nil_of_pyStrip env.pdfText h5)
    have := List.length_pos.mpr hne
    omega
  exact ⟨hshape.1, hshape.2.1, hpos, hshape.2.2.2⟩

/-- C6 (witness): the amended statement instantiated at the concrete
whitespace-heavy oversized document. -/
theorem process_legal_document_over_limit_witness :
    (process_legal_document envC6 false).result.status = stSuccess ∧
      (process_legal_document envC6 false).result.metadata = some
        { estimated_tokens := approx_tokens_from_chars envC6.pdfText 4,
          chunks_processed := (chunk_text envC6.pdfText 30000).length,
          within_token_limit := false } ∧
      1 ≤ (chunk_text envC6.pdfText 30000).length ∧
      (process_legal_document envC6 false).llmCalls =
        (chunk_text envC6.pdfText 30000).length :=
  process_legal_document_over_limit envC6 false rfl rfl rfl rfl badText_strip_ne
    (by rw [show envC6.pdfText = badText from rfl, badText_tokens]; norm_num)

/-- C7: with the LLM client available and the web search yielding zero
results, `verify_misinformation` returns the error result — `status = "error"`,
`classification = None`, `sources = []` — and performs no LLM completion
call. -/
theorem verify_misinformation_no_results (env : VerifyEnv)
    (h1 : env.hasApiKey = true) (h2 : env.rawResults = []) :
    (verify_misinformation env).1.status = stError ∧
      (verify_misinformation env).1.message = some noSearchMsg ∧
      (verify_misinformation env).1.classification = none ∧
      (verify_misinformation env).1.sources = [] ∧
      (verify_misinformation env).2 = 0 := by
  have hempty : (search_web_info env.rawResults env.fetch).isEmpty = true := by
    rw [h2]
    rfl
  unfold verify_misinformation
  rw [if_neg (by simp [h1] : ¬env.hasApiKey = false), if_pos hempty]
  exact ⟨rfl, rfl, rfl, rfl, rfl⟩

def envC7 : VerifyEnv :=
  { hasApiKey := true, rawResults := [], fetch := fun _ => none, llmOk := true,
    llmResponse := [], llmDetail := [] }

/-- C7 (witness): the zero-evidence error result evaluated on a concrete
environment with an empty search-result list. -/
theorem verify_misinformation_no_results_witness :
    (verify_misinformation envC7).1.status = stError ∧
      (verify_misinformation envC7).1.message = some noSearchMsg ∧
      (verify_misinformation envC7).1.classification = none ∧
      (verify_misinformation envC7).1.sources = [] ∧
      (verify_misinformation envC7).2 = 0 :=
  verify_misinformation_no_results envC7 rfl rfl

/-- C8: `search_web_info` returns one source per search result in order — a
per-source fetch failure never aborts or shrinks the batch — and a source whose
page fetch fails (`fetch = none`) falls back to exactly the search snippet as
its content, while a fetched source gets snippet plus cleaned page text. -/
theorem search_web_info_resilient (results : List RawResult)
    (fetch : RawResult → Option (List Char)) (j : Nat) (r : RawResult) (raw : List Char)
    (hj : results[j]? = some r) :
    (search_web_info results fetch).length = results.length ∧
      (fetch r = none → (search_web_info results fetch)[j]? =
        some { title := r.title, url := r.href, content := r.body }) ∧
      (fetch r = some raw → (search_web_info results fetch)[j]? =
        some { title := r.title, url := r.href,
               content := r.body ++ fullContentSep ++ cleanPageText raw }) := by
  refine ⟨List.length_map .., ?_, ?_⟩
  · intro hf
    unfold search_web_info
    rw [List.getElem?_map, hj, Option.map_some', hf]
  · intro hf
    unfold search_web_info
    rw [List.getElem?_map, hj, Option.map_some', hf]

def rawHit1 : RawResult :=
  { title := "t1".toList, href := "u1".toList, body := "snippet one".toList }

def rawHit2 : RawResult :=
  { title := "t2".toList, href := "u2".toList, body := "snippet two".toList }

def fetchW : RawResult → Option (List Char) :=
  fun r => if r.href = rawHit1.href then none else some ("page   text".toList)

def rawPage : List Char := "page   text".toList

/-- C8 (witness): the degradation behavior evaluated on a concrete two-result
batch whose first page fetch fails. -/
theorem search_web_info_resilient_witness :
    (search_web_info [rawHit1, rawHit2] fetchW).length =
        ([rawHit1, rawHit2] : List RawResult).length ∧
      (fetchW rawHit1 = none → (search_web_info [rawHit1, rawHit2] fetchW)[0]? =
        some { title := rawHit1.title, url := rawHit1.href, content := rawHit1.body }) ∧
      (fetchW rawHit1 = some rawPage → (search_web_info [rawHit1, rawHit2] fetchW)[0]? =
        some { title := rawHit1.title, url := rawHit1.href,
               content := rawHit1.body ++ fullContentSep ++ cleanPageText rawPage }) :=
  search_web_info_resilient [rawHit1, rawHit2] fetchW 0 rawHit1 rawPage (by decide)

end H2S
